import Mathlib

/-!
Shallow embedding of `src/assignment1/cs231n/classifiers/linear_svm.py`
(the functions `svm_loss_naive` and `svm_loss_vectorized`) over exact
rational arithmetic, together with proofs about the specification claims.

Conventions of the embedding:

* a numpy array of shape (m, n) is a function `Fin m → Fin n → ℚ`;
* a Python float is a `ℚ`;
* a call that raises a Python exception is modelled as returning `none`
  (the `ZeroDivisionError` raised by the scalar division `loss /= num_train`
  when `num_train = 0`, and the `ValueError` raised by `np.choose`: its
  multi-iterator broadcasts the index array together with the choice
  arrays under numpy's `NPY_MAXARGS = 32` limit, so at most 31 choice
  arrays are accepted and 32 or more raise);
* a numpy floating-point value that is not finite — the NaN produced by
  `np.mean` over an empty axis, or by dividing the all-zero gradient matrix
  by the integer 0 — is modelled as `none : Option ℚ` inside a `some`
  result: the call returns, but the returned numbers are not finite.
-/

namespace LinearSVM

/-- A numpy array of shape (m, n) with rational entries. -/
abbrev Mat (m n : ℕ) : Type := Fin m → Fin n → ℚ

/-- `scores = X[i].dot(W)` (line 29): score of example `i` for class `j`. -/
def scores {D C N : ℕ} (W : Mat D C) (X : Mat N D) (i : Fin N) (j : Fin C) : ℚ :=
  ∑ d, X i d * W d j

/-- `margin = scores[j] - correct_class_score + 1` (line 34), where
`correct_class_score = scores[y[i]]` (line 30). -/
def marginOf {D C N : ℕ} (W : Mat D C) (X : Mat N D) (y : Fin N → Fin C)
    (i : Fin N) (j : Fin C) : ℚ :=
  scores W X i j - scores W X i (y i) + 1

/-- `dW[:, j] += v` (line 36). -/
def addCol {D C : ℕ} (M : Mat D C) (j : Fin C) (v : Fin D → ℚ) : Mat D C :=
  fun d k => if k = j then M d k + v d else M d k

/-- `dW[:, j] -= v` (line 37). -/
def subCol {D C : ℕ} (M : Mat D C) (j : Fin C) (v : Fin D → ℚ) : Mat D C :=
  fun d k => if k = j then M d k - v d else M d k

/-- Body of the inner loop over classes `j` (lines 31-38) of
`svm_loss_naive`, acting on the running state `(loss, dW)`:
the class `j = y[i]` is skipped, and a positive margin adds `margin`
to the loss, adds `X[i]` to column `j` of `dW` and subtracts `X[i]`
from column `y[i]` of `dW`. -/
def naiveStep {D C N : ℕ} (W : Mat D C) (X : Mat N D) (y : Fin N → Fin C)
    (i : Fin N) (st : ℚ × Mat D C) (j : Fin C) : ℚ × Mat D C :=
  if j = y i then st
  else if 0 < marginOf W X y i j then
    (st.1 + marginOf W X y i j, subCol (addCol st.2 j (X i)) (y i) (X i))
  else st

/-- The two nested loops of `svm_loss_naive` (lines 28-38), started from
`loss = 0.0` and `dW = np.zeros(W.shape)` (lines 22, 27). -/
def naiveAccum {D C N : ℕ} (W : Mat D C) (X : Mat N D) (y : Fin N → Fin C) :
    ℚ × Mat D C :=
  (List.finRange N).foldl
    (fun st i => (List.finRange C).foldl (naiveStep W X y i) st)
    (0, fun _ _ => 0)

/-- `np.sum(W * W)` (lines 46, 82). -/
def sumWW {D C : ℕ} (W : Mat D C) : ℚ := ∑ d, ∑ k, W d k * W d k

/-- Embedding of `svm_loss_naive` (lines 4-59).  Returns `none` exactly
when `N = 0`: there `loss /= num_train` (line 42) divides the Python
float `loss` by the Python int `0` and raises `ZeroDivisionError`.
Otherwise, loss and gradient are averaged over the batch (lines 42-43)
and the regularization terms `reg * np.sum(W * W)` and `2 * reg * W` are
added (lines 46-47). -/
def svm_loss_naive {D C N : ℕ} (W : Mat D C) (X : Mat N D) (y : Fin N → Fin C)
    (reg : ℚ) : Option (ℚ × Mat D C) :=
  if N = 0 then none
  else
    some ((naiveAccum W X y).1 / N + reg * sumWW W,
          fun d k => (naiveAccum W X y).2 d k / N + 2 * reg * W d k)

/-- `np.mean` along an axis of length `N` (line 80): NaN (`none`) on an
empty axis, otherwise the exact mean. -/
def npMean (N : ℕ) (f : Fin N → ℚ) : Option ℚ :=
  if N = 0 then none else some ((∑ i, f i) / N)

/-- Elementwise division of a float matrix entry by the Python int
`num_train` (line 105): a non-finite value (`none`) when the divisor is
`0`, otherwise exact. -/
def npDivNat (x : ℚ) (n : ℕ) : Option ℚ :=
  if n = 0 then none else some (x / n)

/-- `margins = np.maximum(0, scores + 1 - np.choose(y, scores.T)[:, np.newaxis])`
(line 79): `np.choose(y, scores.T)` selects `scores i (y i)` in row `i`. -/
def vmargins {D C N : ℕ} (W : Mat D C) (X : Mat N D) (y : Fin N → Fin C)
    (i : Fin N) (j : Fin C) : ℚ :=
  max 0 (scores W X i j + 1 - scores W X i (y i))

/-- `margins[margins > 0] = 1` (line 98): entries larger than 0 are set
to 1, the others (all equal to 0 after the `np.maximum`) are unchanged. -/
def vbin {D C N : ℕ} (W : Mat D C) (X : Mat N D) (y : Fin N → Fin C)
    (i : Fin N) (j : Fin C) : ℚ :=
  if 0 < vmargins W X y i j then 1 else vmargins W X y i j

/-- `num_margins_gtzero = np.sum(margins, axis=1)` (line 99), computed on
the binarized margins. -/
def vnumgt {D C N : ℕ} (W : Mat D C) (X : Mat N D) (y : Fin N → Fin C)
    (i : Fin N) : ℚ :=
  ∑ j, vbin W X y i j

/-- `margins[np.arange(num_train), y] -= num_margins_gtzero` (line 102):
the entry in the correct-class column of each row is decremented by that
row's count. -/
def vadj {D C N : ℕ} (W : Mat D C) (X : Mat N D) (y : Fin N → Fin C)
    (i : Fin N) (j : Fin C) : ℚ :=
  if j = y i then vbin W X y i j - vnumgt W X y i else vbin W X y i j

/-- Embedding of `svm_loss_vectorized` (lines 62-125).  Returns `none`
exactly when `C > 31`: `np.choose(y, scores.T)` (line 79) is handed the
`C` rows of `scores.T` as choice arrays, and its broadcasting
multi-iterator holds the index array `y` as well as the `C` choices
under numpy's `NPY_MAXARGS = 32` limit, so at most 31 choice arrays are
accepted and `C = 32` already raises `ValueError`.  Otherwise it returns
its `(loss, dW)` pair:
loss is `np.mean(np.sum(margins, axis=1)) - 1` (line 80) plus
`reg * np.sum(W * W)` (line 82), and
`dW = np.dot(X.T, margins)` on the adjusted margins (line 104), divided
by `num_train` (line 105), plus `2 * reg * W` (line 106); entries are
`none` when the corresponding numpy float is NaN (the `N = 0` case). -/
def svm_loss_vectorized {D C N : ℕ} (W : Mat D C) (X : Mat N D)
    (y : Fin N → Fin C) (reg : ℚ) :
    Option (Option ℚ × (Fin D → Fin C → Option ℚ)) :=
  if 31 < C then none
  else
    some ((npMean N (fun i => ∑ j, vmargins W X y i j)).map
            (fun m => m - 1 + reg * sumWW W),
          fun d k => (npDivNat (∑ i, X i d * vadj W X y i k) N).map
            (fun v => v + 2 * reg * W d k))

/-- The total hinge loss before averaging: for every example `i` and
every class `j` other than `y i`, the clamped margin
`max (0, scores j - scores (y i) + 1)` is accumulated. -/
def hingeSum {D C N : ℕ} (W : Mat D C) (X : Mat N D) (y : Fin N → Fin C) : ℚ :=
  ∑ i, ∑ j, if j = y i then 0 else max 0 (marginOf W X y i j)

/-- The accumulated gradient before averaging: every pair `(i, j)` with
`j ≠ y i` and a positive margin adds `X i` to column `j` and subtracts
it from column `y i`. -/
def gradSum {D C N : ℕ} (W : Mat D C) (X : Mat N D) (y : Fin N → Fin C)
    (d : Fin D) (k : Fin C) : ℚ :=
  ∑ i, ∑ j, if j = y i then 0
    else if 0 < marginOf W X y i j then
      (if k = j then X i d else 0) - (if k = y i then X i d else 0)
    else 0

/-- The indicator of a strictly positive margin of example `i` against
class `j`. -/
def binQ {D C N : ℕ} (W : Mat D C) (X : Mat N D) (y : Fin N → Fin C)
    (i : Fin N) (j : Fin C) : ℚ :=
  if 0 < marginOf W X y i j then 1 else 0

/-- The rows of a (m, n) array as a list of m lists of length n. -/
def toLists {m n : ℕ} {α : Type} (M : Fin m → Fin n → α) : List (List α) :=
  List.ofFn fun d => List.ofFn fun k => M d k

/-- The shape of a list-of-rows matrix: the number of rows together with
the length of every row. -/
def listShape {α : Type} (L : List (List α)) : ℕ × List ℕ :=
  (L.length, L.map List.length)

/-- The concrete scenario of the spec: D=2, C=3, N=1,
W = [[1,0,0],[0,1,0]], X = [[1,1]], y = [0], reg = 0. -/
def W8 : Mat 2 3 := ![![1, 0, 0], ![0, 1, 0]]

/-- The feature batch X = [[1, 1]] of the concrete scenario. -/
def X8 : Mat 1 2 := ![![1, 1]]

/-- The label vector y = [0] of the concrete scenario. -/
def y8 : Fin 1 → Fin 3 := fun _ => 0

/-- The expected gradient [[-1,1,0],[-1,1,0]] of the concrete scenario. -/
def G8 : Mat 2 3 := ![![-1, 1, 0], ![-1, 1, 0]]

/-- A valid input with C = 33 classes (more than the np.choose limit):
the all-zero weight matrix. -/
def W33 : Mat 1 33 := fun _ _ => 0

/-- The feature batch X = [[1]] used with 33-class inputs. -/
def X33 : Mat 1 1 := fun _ _ => 1

/-- The label vector y = [0] used with 33-class inputs. -/
def y33 : Fin 1 → Fin 33 := fun _ => 0

/-- A 33-class weight matrix that separates the single example of
`X33` with margin at least 1: class 0 scores 2, all others score 0. -/
def W7c : Mat 1 33 := fun _ k => if k = 0 then 2 else 0

/-- A 2-class weight matrix that separates the single example
X = [[1]], y = [0] with margin at least 1. -/
def W7s : Mat 1 2 := ![![2, 0]]

/-- The feature batch X = [[1]] of the small separated scenario. -/
def X7s : Mat 1 1 := ![![1]]

/-- The label vector y = [0] of the small separated scenario. -/
def y7s : Fin 1 → Fin 2 := fun _ => 0

/-- A weight matrix for the empty-batch scenario (D = 1, C = 1). -/
def W01 : Mat 1 1 := fun _ _ => 1

/-- The empty feature batch (N = 0). -/
def X01 : Mat 0 1 := fun i _ => i.elim0

/-- The empty label vector (N = 0). -/
def y01 : Fin 0 → Fin 1 := fun i => i.elim0

/-- The contribution of the pair `(i, j)` to the state `(loss, dW)` in
one pass of the inner loop body of `svm_loss_naive`. -/
def naiveG {D C N : ℕ} (W : Mat D C) (X : Mat N D) (y : Fin N → Fin C)
    (i : Fin N) (j : Fin C) : ℚ × Mat D C :=
  if j = y i then 0
  else if 0 < marginOf W X y i j then
    (marginOf W X y i j,
     fun d k => (if k = j then X i d else 0) - (if k = y i then X i d else 0))
  else 0

theorem foldl_add_eq {α M : Type} [AddCommMonoid M] (g : α → M) :
    ∀ (l : List α) (s : M), l.foldl (fun t a => t + g a) s = s + (l.map g).sum
  | [], s => by simp
  | a :: l, s => by
    simp only [List.foldl_cons, List.map_cons, List.sum_cons]
    rw [foldl_add_eq g l (s + g a), add_assoc]

theorem naiveStep_eq {D C N : ℕ} (W : Mat D C) (X : Mat N D) (y : Fin N → Fin C)
    (i : Fin N) (st : ℚ × Mat D C) (j : Fin C) :
    naiveStep W X y i st j = st + naiveG W X y i j := by
  unfold naiveStep naiveG
  by_cases h1 : j = y i
  · simp [h1]
  · simp only [h1, if_false]
    by_cases h2 : 0 < marginOf W X y i j
    · simp only [h2, if_true]
      refine Prod.ext_iff.mpr ⟨by simp, ?_⟩
      have h1s : y i ≠ j := Ne.symm h1
      funext d k
      by_cases h3 : k = y i <;> by_cases h4 : k = j <;>
        simp [subCol, addCol, h1, h3, h4, h1s, Prod.snd_add, Pi.add_apply] <;> ring
    · simp [h2]

theorem naiveAccum_eq {D C N : ℕ} (W : Mat D C) (X : Mat N D) (y : Fin N → Fin C) :
    naiveAccum W X y = ∑ i, ∑ j, naiveG W X y i j := by
  unfold naiveAccum
  have hinner : ∀ (i : Fin N) (st : ℚ × Mat D C),
      (List.finRange C).foldl (naiveStep W X y i) st = st + ∑ j, naiveG W X y i j := by
    intro i st
    have h : naiveStep W X y i = fun t j => t + naiveG W X y i j := by
      funext t j; exact naiveStep_eq W X y i t j
    rw [h, foldl_add_eq, Fin.sum_univ_def]
  have houter : (fun st i => (List.finRange C).foldl (naiveStep W X y i) st)
      = fun st i => st + ∑ j, naiveG W X y i j := by
    funext st i; exact hinner i st
  have h0 : ((0, fun _ _ => 0) : ℚ × Mat D C) = 0 := rfl
  rw [houter, foldl_add_eq, h0, zero_add, Fin.sum_univ_def]

theorem naiveAccum_fst {D C N : ℕ} (W : Mat D C) (X : Mat N D) (y : Fin N → Fin C) :
    (naiveAccum W X y).1 = hingeSum W X y := by
  rw [naiveAccum_eq]
  unfold hingeSum
  rw [Prod.fst_sum]
  refine Finset.sum_congr rfl fun i _ => ?_
  rw [Prod.fst_sum]
  refine Finset.sum_congr rfl fun j _ => ?_
  unfold naiveG
  by_cases h1 : j = y i
  · simp [h1]
  · by_cases h2 : 0 < marginOf W X y i j
    · simp [h1, h2, max_eq_right h2.le]
    · simp [h1, h2, max_eq_left (not_lt.1 h2)]

theorem naiveAccum_snd {D C N : ℕ} (W : Mat D C) (X : Mat N D) (y : Fin N → Fin C)
    (d : Fin D) (k : Fin C) :
    (naiveAccum W X y).2 d k = gradSum W X y d k := by
  rw [naiveAccum_eq]
  unfold gradSum
  rw [Prod.snd_sum, Finset.sum_apply, Finset.sum_apply]
  refine Finset.sum_congr rfl fun i _ => ?_
  rw [Prod.snd_sum, Finset.sum_apply, Finset.sum_apply]
  refine Finset.sum_congr rfl fun j _ => ?_
  unfold naiveG
  by_cases h1 : j = y i
  · simp [h1]
  · by_cases h2 : 0 < marginOf W X y i j
    · simp [h1, h2]
    · simp [h1, h2]

/-- Closed form of `svm_loss_naive` on a nonempty batch. -/
theorem svm_loss_naive_closed {D C N : ℕ} (W : Mat D C) (X : Mat N D)
    (y : Fin N → Fin C) (reg : ℚ) (hN : N ≠ 0) :
    svm_loss_naive W X y reg =
      some (hingeSum W X y / N + reg * sumWW W,
            fun d k => gradSum W X y d k / N + 2 * reg * W d k) := by
  unfold svm_loss_naive
  rw [if_neg hN]
  have h1 : (naiveAccum W X y).1 = hingeSum W X y := naiveAccum_fst W X y
  have h2 : (naiveAccum W X y).2 = fun d k => gradSum W X y d k := by
    funext d k; exact naiveAccum_snd W X y d k
  rw [h1, h2]

theorem naive_some_ne_zero {D C N : ℕ} {W : Mat D C} {X : Mat N D}
    {y : Fin N → Fin C} {reg : ℚ} {p : ℚ × Mat D C}
    (h : svm_loss_naive W X y reg = some p) : N ≠ 0 := by
  intro hN
  unfold svm_loss_naive at h
  rw [if_pos hN] at h
  cases h

theorem sum_split_at {C : ℕ} (a : Fin C) (f : Fin C → ℚ) :
    ∑ j, f j = f a + ∑ j, if j = a then 0 else f j := by
  have h1 : ∀ j, f j = (if j = a then f j else 0) + (if j = a then 0 else f j) := by
    intro j; by_cases h : j = a <;> simp [h]
  rw [Finset.sum_congr rfl fun j _ => h1 j, Finset.sum_add_distrib]
  congr 1
  rw [Finset.sum_ite_eq' Finset.univ a f]
  simp

theorem marginOf_self {D C N : ℕ} (W : Mat D C) (X : Mat N D) (y : Fin N → Fin C)
    (i : Fin N) : marginOf W X y i (y i) = 1 := by
  unfold marginOf
  rw [sub_self, zero_add]

theorem vmargins_eq {D C N : ℕ} (W : Mat D C) (X : Mat N D) (y : Fin N → Fin C)
    (i : Fin N) (j : Fin C) :
    vmargins W X y i j = max 0 (marginOf W X y i j) := by
  unfold vmargins marginOf
  congr 1
  ring

theorem vbin_eq {D C N : ℕ} (W : Mat D C) (X : Mat N D) (y : Fin N → Fin C)
    (i : Fin N) (j : Fin C) :
    vbin W X y i j = binQ W X y i j := by
  unfold vbin binQ
  rw [vmargins_eq]
  by_cases h : 0 < marginOf W X y i j
  · simp [max_eq_right h.le, h]
  · simp [max_eq_left (not_lt.1 h), h]

theorem binQ_self {D C N : ℕ} (W : Mat D C) (X : Mat N D) (y : Fin N → Fin C)
    (i : Fin N) : binQ W X y i (y i) = 1 := by
  unfold binQ
  rw [marginOf_self]
  norm_num

theorem vnumgt_eq {D C N : ℕ} (W : Mat D C) (X : Mat N D) (y : Fin N → Fin C)
    (i : Fin N) :
    vnumgt W X y i = 1 + ∑ j, if j = y i then 0 else binQ W X y i j := by
  unfold vnumgt
  rw [Finset.sum_congr rfl fun j _ => vbin_eq W X y i j, sum_split_at (y i),
    binQ_self]

theorem vec_choose_fail {D C N : ℕ} (W : Mat D C) (X : Mat N D)
    (y : Fin N → Fin C) (reg : ℚ) (hC : 31 < C) :
    svm_loss_vectorized W X y reg = none := by
  unfold svm_loss_vectorized
  rw [if_pos hC]

theorem vec_empty {D C N : ℕ} (W : Mat D C) (X : Mat N D) (y : Fin N → Fin C)
    (reg : ℚ) (hC : ¬ 31 < C) (hN : N = 0) :
    svm_loss_vectorized W X y reg = some (none, fun _ _ => none) := by
  subst hN
  unfold svm_loss_vectorized
  rw [if_neg hC]
  have hloss : (npMean 0 (fun i => ∑ j, vmargins W X y i j)).map
      (fun m => m - 1 + reg * sumWW W) = none := by
    unfold npMean
    simp
  have hgrad : (fun (d : Fin D) (k : Fin C) =>
        (npDivNat (∑ i, X i d * vadj W X y i k) 0).map
          (fun v => v + 2 * reg * W d k))
      = fun _ _ => (none : Option ℚ) := by
    funext d k
    unfold npDivNat
    simp
  rw [hloss, hgrad]

theorem hinge_row {D C N : ℕ} (W : Mat D C) (X : Mat N D) (y : Fin N → Fin C)
    (i : Fin N) :
    ∑ j, vmargins W X y i j
      = 1 + ∑ j, if j = y i then 0 else max 0 (marginOf W X y i j) := by
  rw [Finset.sum_congr rfl fun j _ => vmargins_eq W X y i j, sum_split_at (y i),
    marginOf_self, max_eq_right (by norm_num : (0:ℚ) ≤ 1)]

theorem grad_col {D C N : ℕ} (W : Mat D C) (X : Mat N D) (y : Fin N → Fin C)
    (d : Fin D) (k : Fin C) :
    ∑ i, X i d * vadj W X y i k = gradSum W X y d k := by
  unfold gradSum
  refine Finset.sum_congr rfl fun i _ => ?_
  by_cases hk : k = y i
  · have hterm : ∀ j, (if j = y i then (0:ℚ)
        else if 0 < marginOf W X y i j then
          (if k = j then X i d else 0) - (if k = y i then X i d else 0)
        else 0)
        = (-(X i d)) * (if j = y i then 0 else binQ W X y i j) := by
      intro j
      by_cases h1 : j = y i
      · simp [h1]
      · have hkj : ¬ k = j := by rw [hk]; exact fun h => h1 h.symm
        have h1s : y i ≠ j := fun h => h1 h.symm
        by_cases h2 : 0 < marginOf W X y i j <;>
          simp [h1, h2, hk, hkj, h1s, binQ]
    calc X i d * vadj W X y i k
        = (-(X i d)) * ∑ j, if j = y i then (0:ℚ) else binQ W X y i j := by
          simp only [vadj]
          rw [if_pos hk, vbin_eq, hk, binQ_self, vnumgt_eq]
          ring
      _ = ∑ j, (-(X i d)) * (if j = y i then (0:ℚ) else binQ W X y i j) :=
          Finset.mul_sum Finset.univ _ _
      _ = ∑ j, (if j = y i then (0:ℚ)
            else if 0 < marginOf W X y i j then
              (if k = j then X i d else 0) - (if k = y i then X i d else 0)
            else 0) :=
          Finset.sum_congr rfl fun j _ => (hterm j).symm
  · have hzero : ∀ j ∈ Finset.univ, j ≠ k → (if j = y i then (0:ℚ)
        else if 0 < marginOf W X y i j then
          (if k = j then X i d else 0) - (if k = y i then X i d else 0)
        else 0) = 0 := by
      intro j _ hj
      have hkj : ¬ k = j := fun h => hj h.symm
      by_cases h1 : j = y i
      · simp [h1]
      · by_cases h2 : 0 < marginOf W X y i j <;> simp [h1, h2, hkj, hk]
    rw [Finset.sum_eq_single k hzero (fun h => absurd (Finset.mem_univ k) h)]
    simp only [vadj]
    rw [if_neg hk, vbin_eq]
    unfold binQ
    by_cases h2 : 0 < marginOf W X y i k <;> simp [h2, hk]

/-- Closed form of `svm_loss_vectorized` on a nonempty batch with at
most 31 classes (the np.choose limit): it agrees exactly with the
closed form of `svm_loss_naive`. -/
theorem vec_closed {D C N : ℕ} (W : Mat D C) (X : Mat N D) (y : Fin N → Fin C)
    (reg : ℚ) (hC : ¬ 31 < C) (hN : N ≠ 0) :
    svm_loss_vectorized W X y reg =
      some (some (hingeSum W X y / N + reg * sumWW W),
            fun d k => some (gradSum W X y d k / N + 2 * reg * W d k)) := by
  have hNQ : (N:ℚ) ≠ 0 := Nat.cast_ne_zero.mpr hN
  have hloss : (npMean N (fun i => ∑ j, vmargins W X y i j)).map
      (fun m => m - 1 + reg * sumWW W)
      = some (hingeSum W X y / N + reg * sumWW W) := by
    unfold npMean
    rw [if_neg hN, Option.map_some']
    refine congrArg some ?_
    have hrows : (∑ i, ∑ j, vmargins W X y i j) = N + hingeSum W X y := by
      rw [Finset.sum_congr rfl fun i _ => hinge_row W X y i,
        Finset.sum_add_distrib]
      unfold hingeSum
      congr 1
      simp
    rw [hrows, add_div, div_self hNQ]
    ring
  have hgrad : (fun (d : Fin D) (k : Fin C) =>
        (npDivNat (∑ i, X i d * vadj W X y i k) N).map
          (fun v => v + 2 * reg * W d k))
      = fun d k => some (gradSum W X y d k / N + 2 * reg * W d k) := by
    funext d k
    unfold npDivNat
    rw [if_neg hN, Option.map_some', grad_col]
  unfold svm_loss_vectorized
  rw [if_neg hC, hloss, hgrad]

theorem vec_some_choose_ok {D C N : ℕ} {W : Mat D C} {X : Mat N D}
    {y : Fin N → Fin C} {reg : ℚ} {p : Option ℚ × (Fin D → Fin C → Option ℚ)}
    (h : svm_loss_vectorized W X y reg = some p) : ¬ 31 < C := by
  intro hC
  rw [vec_choose_fail W X y reg hC] at h
  cases h

theorem vec_some_ne_zero {D C N : ℕ} {W : Mat D C} {X : Mat N D}
    {y : Fin N → Fin C} {reg : ℚ} {l : ℚ} {g : Fin D → Fin C → Option ℚ}
    (h : svm_loss_vectorized W X y reg = some (some l, g)) : N ≠ 0 := by
  intro hN
  rw [vec_empty W X y reg (vec_some_choose_ok h) hN] at h
  have h2 := congrArg Prod.fst (Option.some.inj h)
  cases h2

theorem hingeSum_perm {D C N : ℕ} (W : Mat D C) (X : Mat N D) (y : Fin N → Fin C)
    (e : Equiv.Perm (Fin N)) :
    hingeSum W (fun i => X (e i)) (fun i => y (e i)) = hingeSum W X y := by
  unfold hingeSum
  exact Fintype.sum_equiv e _ _ fun i => rfl

theorem gradSum_perm {D C N : ℕ} (W : Mat D C) (X : Mat N D) (y : Fin N → Fin C)
    (e : Equiv.Perm (Fin N)) (d : Fin D) (k : Fin C) :
    gradSum W (fun i => X (e i)) (fun i => y (e i)) d k = gradSum W X y d k := by
  unfold gradSum
  exact Fintype.sum_equiv e _ _ fun i => rfl

theorem hingeSum_nonneg {D C N : ℕ} (W : Mat D C) (X : Mat N D)
    (y : Fin N → Fin C) : 0 ≤ hingeSum W X y :=
  Finset.sum_nonneg fun i _ => Finset.sum_nonneg fun j _ => by
    by_cases h : j = y i
    · simp [h]
    · simp only [h, if_false]
      exact le_max_left 0 _

theorem sumWW_nonneg {D C : ℕ} (W : Mat D C) : 0 ≤ sumWW W :=
  Finset.sum_nonneg fun d _ => Finset.sum_nonneg fun k _ => mul_self_nonneg _

theorem hingeSum_eq_zero {D C N : ℕ} (W : Mat D C) (X : Mat N D)
    (y : Fin N → Fin C) (hm : ∀ i j, j ≠ y i → marginOf W X y i j ≤ 0) :
    hingeSum W X y = 0 :=
  Finset.sum_eq_zero fun i _ => Finset.sum_eq_zero fun j _ => by
    by_cases h : j = y i
    · simp [h]
    · simp [h, max_eq_left (hm i j h)]

theorem gradSum_eq_zero {D C N : ℕ} (W : Mat D C) (X : Mat N D)
    (y : Fin N → Fin C) (hm : ∀ i j, j ≠ y i → marginOf W X y i j ≤ 0)
    (d : Fin D) (k : Fin C) :
    gradSum W X y d k = 0 :=
  Finset.sum_eq_zero fun i _ => Finset.sum_eq_zero fun j _ => by
    by_cases h : j = y i
    · simp [h]
    · simp [h, not_lt.2 (hm i j h)]

theorem max_zero_ite (m : ℚ) : max 0 m = if 0 < m then m else 0 := by
  by_cases h : 0 < m
  · rw [max_eq_right h.le, if_pos h]
  · rw [max_eq_left (not_lt.1 h), if_neg h]

theorem hingeSum_W8 : hingeSum W8 X8 y8 = 1 := by
  norm_num [hingeSum, marginOf, scores, W8, X8, y8, Fin.sum_univ_succ, max_zero_ite]

theorem gradSum_W8 : ∀ d k, gradSum W8 X8 y8 d k = G8 d k := by
  intro d k
  fin_cases d <;> fin_cases k <;>
    norm_num [gradSum, marginOf, scores, W8, X8, y8, G8, Fin.sum_univ_succ,
      Fin.ext_iff, Fin.val_succ]

theorem naive_W8_eval : svm_loss_naive W8 X8 y8 0 = some (1, G8) := by
  rw [svm_loss_naive_closed W8 X8 y8 0 one_ne_zero, hingeSum_W8]
  norm_num [gradSum_W8]

theorem vec_W8_eval :
    svm_loss_vectorized W8 X8 y8 0 = some (some 1, fun d k => some (G8 d k)) := by
  rw [vec_closed W8 X8 y8 0 (by norm_num) one_ne_zero, hingeSum_W8]
  norm_num [gradSum_W8]

theorem margins_W7s : ∀ i j, j ≠ y7s i → marginOf W7s X7s y7s i j ≤ 0 := by
  intro i j hj
  fin_cases i
  fin_cases j
  · simp [y7s] at hj
  · norm_num [marginOf, scores, W7s, X7s, y7s, Fin.sum_univ_succ]

theorem margins_W7c : ∀ i j, j ≠ y33 i → marginOf W7c X33 y33 i j ≤ 0 := by
  intro i j hj
  have hji : j ≠ 0 := hj
  norm_num [marginOf, scores, W7c, X33, y33, Fin.sum_univ_succ, hji]

/-- C1 (amended with the np.choose limit C ≤ 31: the index array counts
toward NPY_MAXARGS = 32, so at most 31 choice arrays are accepted): for
every valid input (y in range by typing, reg ≥ 0, N ≥ 1) with at most
31 classes, svm_loss_naive and svm_loss_vectorized both return, and in
exact arithmetic their loss values and their gradient matrices are
equal (hence within any positive tolerance of each other). -/
theorem C1_equiv {D C N : ℕ} (W : Mat D C) (X : Mat N D) (y : Fin N → Fin C)
    (reg : ℚ) (hreg : 0 ≤ reg) (hN : N ≠ 0) (hC : C ≤ 31) :
    ∃ l dW, svm_loss_naive W X y reg = some (l, dW) ∧
      svm_loss_vectorized W X y reg = some (some l, fun d k => some (dW d k)) := by
  refine ⟨_, _, svm_loss_naive_closed W X y reg hN, ?_⟩
  rw [vec_closed W X y reg (not_lt.2 hC) hN]

/-- C1 is false as stated: on the valid input D=1, C=33, N=1,
W = W33 (zeros), X = [[1]], y = [0], reg = 0, svm_loss_naive returns a
value but svm_loss_vectorized raises (np.choose gets 33 choice arrays
plus the index array, over NPY_MAXARGS = 32), so the two do not return
loss values within any tolerance. -/
theorem C1_counterexample :
    (∃ r, svm_loss_naive W33 X33 y33 0 = some r) ∧
    svm_loss_vectorized W33 X33 y33 0 = none :=
  ⟨⟨_, svm_loss_naive_closed W33 X33 y33 0 one_ne_zero⟩,
   vec_choose_fail W33 X33 y33 0 (by norm_num)⟩

/-- Witness for C1_equiv at the concrete scenario input. -/
theorem C1_equiv_witness :
    (0:ℚ) ≤ 0 ∧ (1:ℕ) ≠ 0 ∧ (3:ℕ) ≤ 31 ∧
    (∃ l dW, svm_loss_naive W8 X8 y8 0 = some (l, dW) ∧
      svm_loss_vectorized W8 X8 y8 0 = some (some l, fun d k => some (dW d k))) :=
  ⟨le_refl 0, one_ne_zero, by norm_num,
   C1_equiv W8 X8 y8 0 (le_refl 0) one_ne_zero (by norm_num)⟩

/-- C2: on a nonempty batch, svm_loss_naive returns the mean hinge loss
plus reg * sum(W*W), and the gradient whose (d, k) entry is the mean over
examples of the accumulated column updates plus 2 * reg * W d k. -/
theorem C2_naive_formula {D C N : ℕ} (W : Mat D C) (X : Mat N D)
    (y : Fin N → Fin C) (reg : ℚ) (hN : N ≠ 0) :
    svm_loss_naive W X y reg =
      some (hingeSum W X y / N + reg * sumWW W,
            fun d k => gradSum W X y d k / N + 2 * reg * W d k) :=
  svm_loss_naive_closed W X y reg hN

/-- Witness for C2_naive_formula at the concrete scenario input. -/
theorem C2_witness :
    (1:ℕ) ≠ 0 ∧
    svm_loss_naive W8 X8 y8 0 =
      some (hingeSum W8 X8 y8 / ((1:ℕ):ℚ) + 0 * sumWW W8,
            fun d k => gradSum W8 X8 y8 d k / ((1:ℕ):ℚ) + 2 * 0 * W8 d k) :=
  ⟨one_ne_zero, C2_naive_formula W8 X8 y8 0 one_ne_zero⟩

/-- C3 (amended): on an empty batch (N = 0, with C ≤ 31 so that
np.choose on line 79 does not raise first) svm_loss_naive fails
immediately (ZeroDivisionError from the scalar mean), while
svm_loss_vectorized does not fail: np.mean of the empty axis and the
elementwise division of the zero gradient by 0 produce NaN, so it
returns a NaN loss and an all-NaN gradient instead of raising. -/
theorem C3_empty_batch {D C : ℕ} (W : Mat D C) (X : Mat 0 D) (y : Fin 0 → Fin C)
    (reg : ℚ) (hC : C ≤ 31) :
    svm_loss_naive W X y reg = none ∧
    svm_loss_vectorized W X y reg = some (none, fun _ _ => none) :=
  ⟨by unfold svm_loss_naive; rw [if_pos rfl],
   vec_empty W X y reg (not_lt.2 hC) rfl⟩

/-- C3 is false as stated: on the empty-batch input with D = 1, C = 1,
svm_loss_naive does fail, but svm_loss_vectorized returns a value
(the NaN pair) rather than failing via division by zero. -/
theorem C3_counterexample :
    svm_loss_naive W01 X01 y01 0 = none ∧
    svm_loss_vectorized W01 X01 y01 0 = some (none, fun _ _ => none) ∧
    svm_loss_vectorized W01 X01 y01 0 ≠ none :=
  ⟨by unfold svm_loss_naive; rw [if_pos rfl],
   vec_empty W01 X01 y01 0 (by norm_num) rfl,
   by rw [vec_empty W01 X01 y01 0 (by norm_num) rfl]; exact Option.some_ne_none _⟩

/-- Witness for C3_empty_batch at the concrete empty-batch input. -/
theorem C3_witness :
    (1:ℕ) ≤ 31 ∧
    (svm_loss_naive W01 X01 y01 0 = none ∧
     svm_loss_vectorized W01 X01 y01 0 = some (none, fun _ _ => none)) :=
  ⟨by norm_num, C3_empty_batch W01 X01 y01 0 (by norm_num)⟩

/-- C4: whenever C > 32 svm_loss_vectorized fails (np.choose's
NPY_MAXARGS = 32 limit on the broadcast of the index array with the
choice arrays; in fact it already fails at C = 32), and on the concrete
valid 33-class input svm_loss_naive returns a result while
svm_loss_vectorized fails; hence the vectorized form only succeeds when
C ≤ 32. -/
theorem C4_choose_limit {D C N : ℕ} (W : Mat D C) (X : Mat N D)
    (y : Fin N → Fin C) (reg : ℚ) (hC : 32 < C) :
    svm_loss_vectorized W X y reg = none ∧
    (∃ r, svm_loss_naive W33 X33 y33 0 = some r) ∧
    svm_loss_vectorized W33 X33 y33 0 = none :=
  ⟨vec_choose_fail W X y reg (lt_trans (by norm_num) hC),
   ⟨_, svm_loss_naive_closed W33 X33 y33 0 one_ne_zero⟩,
   vec_choose_fail W33 X33 y33 0 (by norm_num)⟩

/-- Witness for C4_choose_limit at the concrete 33-class input. -/
theorem C4_witness :
    (32:ℕ) < 33 ∧
    (svm_loss_vectorized W33 X33 y33 0 = none ∧
     (∃ r, svm_loss_naive W33 X33 y33 0 = some r) ∧
     svm_loss_vectorized W33 X33 y33 0 = none) :=
  ⟨by norm_num, C4_choose_limit W33 X33 y33 0 (by norm_num)⟩

/-- C5: whenever either implementation returns, the returned gradient
matrix has exactly the shape (D, C) of the input weight matrix: the same
number of rows and the same length for every row (in the embedding the
shape is carried by the index types, so this holds by construction). -/
theorem C5_grad_shape {D C N : ℕ} (W : Mat D C) (X : Mat N D) (y : Fin N → Fin C)
    (reg : ℚ) (l : ℚ) (dW : Mat D C) (lv : Option ℚ) (g : Fin D → Fin C → Option ℚ)
    (h1 : svm_loss_naive W X y reg = some (l, dW))
    (h2 : svm_loss_vectorized W X y reg = some (lv, g)) :
    listShape (toLists dW) = listShape (toLists W) ∧
    listShape (toLists g) = listShape (toLists W) := by
  have key : ∀ (α β : Type) (A : Fin D → Fin C → α) (B : Fin D → Fin C → β),
      listShape (toLists A) = listShape (toLists B) := by
    intro α β A B
    unfold listShape toLists
    rw [List.map_ofFn, List.map_ofFn]
    simp only [List.length_ofFn]
    refine congrArg (Prod.mk D) (congrArg List.ofFn ?_)
    funext d
    simp [Function.comp, List.length_ofFn]
  exact ⟨key ℚ ℚ dW W, key (Option ℚ) ℚ g W⟩

/-- Witness for C5_grad_shape at the concrete scenario input. -/
theorem C5_witness :
    svm_loss_naive W8 X8 y8 0 = some (1, G8) ∧
    svm_loss_vectorized W8 X8 y8 0 = some (some 1, fun d k => some (G8 d k)) ∧
    (listShape (toLists G8) = listShape (toLists W8) ∧
     listShape (toLists (fun d k => some (G8 d k))) = listShape (toLists W8)) :=
  ⟨naive_W8_eval, vec_W8_eval,
   C5_grad_shape W8 X8 y8 0 1 G8 (some 1) (fun d k => some (G8 d k))
     naive_W8_eval vec_W8_eval⟩

/-- C6: with reg ≥ 0, any loss value returned by svm_loss_naive or by
svm_loss_vectorized is nonnegative. -/
theorem C6_loss_nonneg {D C N : ℕ} (W : Mat D C) (X : Mat N D) (y : Fin N → Fin C)
    (reg : ℚ) (hreg : 0 ≤ reg) :
    (∀ l dW, svm_loss_naive W X y reg = some (l, dW) → 0 ≤ l) ∧
    (∀ l g, svm_loss_vectorized W X y reg = some (some l, g) → 0 ≤ l) := by
  have hpos : N ≠ 0 → 0 ≤ hingeSum W X y / N + reg * sumWW W := by
    intro _
    exact add_nonneg
      (div_nonneg (hingeSum_nonneg W X y) (Nat.cast_nonneg N))
      (mul_nonneg hreg (sumWW_nonneg W))
  constructor
  · intro l dW h
    have hN := naive_some_ne_zero h
    rw [svm_loss_naive_closed W X y reg hN] at h
    injection h with h1
    injection h1 with hl hg
    rw [← hl]
    exact hpos hN
  · intro l g h
    have hC := vec_some_choose_ok h
    have hN := vec_some_ne_zero h
    rw [vec_closed W X y reg hC hN] at h
    injection h with h1
    injection h1 with hl hg
    injection hl with hl2
    rw [← hl2]
    exact hpos hN

/-- Witness for C6_loss_nonneg at the concrete scenario input. -/
theorem C6_witness :
    (0:ℚ) ≤ 0 ∧
    ((∀ l dW, svm_loss_naive W8 X8 y8 0 = some (l, dW) → 0 ≤ l) ∧
     (∀ l g, svm_loss_vectorized W8 X8 y8 0 = some (some l, g) → 0 ≤ l)) :=
  ⟨le_refl 0, C6_loss_nonneg W8 X8 y8 0 (le_refl 0)⟩

/-- C7 (amended with the np.choose limit C ≤ 31: the index array counts
toward NPY_MAXARGS = 32): if reg = 0, the batch is nonempty, there are
at most 31 classes and every margin of an incorrect class is ≤ 0, both
implementations return loss 0 and the zero gradient matrix. -/
theorem C7_perfect_separation {D C N : ℕ} (W : Mat D C) (X : Mat N D)
    (y : Fin N → Fin C) (hN : N ≠ 0) (hC : C ≤ 31)
    (hm : ∀ i j, j ≠ y i → marginOf W X y i j ≤ 0) :
    svm_loss_naive W X y 0 = some (0, fun _ _ => 0) ∧
    svm_loss_vectorized W X y 0 = some (some 0, fun _ _ => some 0) := by
  constructor
  · rw [svm_loss_naive_closed W X y 0 hN, hingeSum_eq_zero W X y hm]
    norm_num [gradSum_eq_zero W X y hm]
  · rw [vec_closed W X y 0 (not_lt.2 hC) hN, hingeSum_eq_zero W X y hm]
    norm_num [gradSum_eq_zero W X y hm]

/-- C7 is false as stated: on the valid input D=1, C=33, N=1,
W = W7c, X = [[1]], y = [0], reg = 0, every incorrect-class margin is
≤ 0 and svm_loss_naive returns loss 0 with the zero gradient, but
svm_loss_vectorized fails (np.choose limit) instead of returning
loss 0 and the zero matrix. -/
theorem C7_counterexample :
    (∀ i j, j ≠ y33 i → marginOf W7c X33 y33 i j ≤ 0) ∧
    svm_loss_naive W7c X33 y33 0 = some (0, fun _ _ => 0) ∧
    svm_loss_vectorized W7c X33 y33 0 = none := by
  refine ⟨margins_W7c, ?_, vec_choose_fail W7c X33 y33 0 (by norm_num)⟩
  rw [svm_loss_naive_closed W7c X33 y33 0 one_ne_zero,
    hingeSum_eq_zero W7c X33 y33 margins_W7c]
  norm_num [gradSum_eq_zero W7c X33 y33 margins_W7c]

/-- Witness for C7_perfect_separation at the small separated input. -/
theorem C7_witness :
    (1:ℕ) ≠ 0 ∧ (2:ℕ) ≤ 31 ∧
    (∀ i j, j ≠ y7s i → marginOf W7s X7s y7s i j ≤ 0) ∧
    (svm_loss_naive W7s X7s y7s 0 = some (0, fun _ _ => 0) ∧
     svm_loss_vectorized W7s X7s y7s 0 = some (some 0, fun _ _ => some 0)) :=
  ⟨one_ne_zero, by norm_num, margins_W7s,
   C7_perfect_separation W7s X7s y7s one_ne_zero (by norm_num) margins_W7s⟩

/-- C8: on the concrete scenario D=2, C=3, N=1, W = [[1,0,0],[0,1,0]],
X = [[1,1]], y = [0], reg = 0, both implementations return loss 1.0 and
gradient [[-1,1,0],[-1,1,0]]. -/
theorem C8_concrete :
    svm_loss_naive W8 X8 y8 0 = some (1, G8) ∧
    svm_loss_vectorized W8 X8 y8 0 = some (some 1, fun d k => some (G8 d k)) :=
  ⟨naive_W8_eval, vec_W8_eval⟩

/-- C9: holding W, X, y fixed, whenever the losses at reg = 0, reg and
2*reg are returned, the regularization contribution doubles exactly:
loss(2 reg) - loss(0) = 2 * (loss(reg) - loss(0)), with
loss(reg) - loss(0) = reg * sum(W*W); likewise the gradient
contribution: dW(reg) - dW(0) = 2 * reg * W elementwise and
dW(2 reg) - dW(0) = 2 * (dW(reg) - dW(0)), for both implementations. -/
theorem C9_reg_scaling {D C N : ℕ} (W : Mat D C) (X : Mat N D) (y : Fin N → Fin C)
    (reg : ℚ) (hreg : 0 ≤ reg) :
    (∀ l₀ g₀ l₁ g₁ l₂ g₂,
      svm_loss_naive W X y 0 = some (l₀, g₀) →
      svm_loss_naive W X y reg = some (l₁, g₁) →
      svm_loss_naive W X y (2 * reg) = some (l₂, g₂) →
      l₂ - l₀ = 2 * (l₁ - l₀) ∧ l₁ - l₀ = reg * sumWW W ∧
      ∀ d k, g₂ d k - g₀ d k = 2 * (g₁ d k - g₀ d k) ∧
             g₁ d k - g₀ d k = 2 * reg * W d k) ∧
    (∀ l₀ g₀ l₁ g₁ l₂ g₂,
      svm_loss_vectorized W X y 0 = some (some l₀, g₀) →
      svm_loss_vectorized W X y reg = some (some l₁, g₁) →
      svm_loss_vectorized W X y (2 * reg) = some (some l₂, g₂) →
      l₂ - l₀ = 2 * (l₁ - l₀) ∧ l₁ - l₀ = reg * sumWW W ∧
      ∀ d k, ∃ v₀ v₁ v₂, g₀ d k = some v₀ ∧ g₁ d k = some v₁ ∧ g₂ d k = some v₂ ∧
             v₂ - v₀ = 2 * (v₁ - v₀) ∧ v₁ - v₀ = 2 * reg * W d k) := by
  constructor
  · intro l₀ g₀ l₁ g₁ l₂ g₂ h₀ h₁ h₂
    have hN := naive_some_ne_zero h₀
    rw [svm_loss_naive_closed W X y 0 hN] at h₀
    rw [svm_loss_naive_closed W X y reg hN] at h₁
    rw [svm_loss_naive_closed W X y (2 * reg) hN] at h₂
    injection h₀ with h₀p
    injection h₀p with hl₀ hg₀
    injection h₁ with h₁p
    injection h₁p with hl₁ hg₁
    injection h₂ with h₂p
    injection h₂p with hl₂ hg₂
    have hp₀ : ∀ d k, g₀ d k = gradSum W X y d k / N + 2 * 0 * W d k :=
      fun d k => by rw [← hg₀]
    have hp₁ : ∀ d k, g₁ d k = gradSum W X y d k / N + 2 * reg * W d k :=
      fun d k => by rw [← hg₁]
    have hp₂ : ∀ d k, g₂ d k = gradSum W X y d k / N + 2 * (2 * reg) * W d k :=
      fun d k => by rw [← hg₂]
    refine ⟨by rw [← hl₀, ← hl₁, ← hl₂]; ring,
            by rw [← hl₀, ← hl₁]; ring, ?_⟩
    intro d k
    rw [hp₀ d k, hp₁ d k, hp₂ d k]
    constructor <;> ring
  · intro l₀ g₀ l₁ g₁ l₂ g₂ h₀ h₁ h₂
    have hC := vec_some_choose_ok h₀
    have hN := vec_some_ne_zero h₀
    rw [vec_closed W X y 0 hC hN] at h₀
    rw [vec_closed W X y reg hC hN] at h₁
    rw [vec_closed W X y (2 * reg) hC hN] at h₂
    injection h₀ with h₀p
    injection h₀p with hl₀ hg₀
    injection hl₀ with hl₀q
    injection h₁ with h₁p
    injection h₁p with hl₁ hg₁
    injection hl₁ with hl₁q
    injection h₂ with h₂p
    injection h₂p with hl₂ hg₂
    injection hl₂ with hl₂q
    have hp₀ : ∀ d k, g₀ d k = some (gradSum W X y d k / N + 2 * 0 * W d k) :=
      fun d k => by rw [← hg₀]
    have hp₁ : ∀ d k, g₁ d k = some (gradSum W X y d k / N + 2 * reg * W d k) :=
      fun d k => by rw [← hg₁]
    have hp₂ : ∀ d k, g₂ d k = some (gradSum W X y d k / N + 2 * (2 * reg) * W d k) :=
      fun d k => by rw [← hg₂]
    refine ⟨by rw [← hl₀q, ← hl₁q, ← hl₂q]; ring,
            by rw [← hl₀q, ← hl₁q]; ring, ?_⟩
    intro d k
    refine ⟨_, _, _, hp₀ d k, hp₁ d k, hp₂ d k, ?_, ?_⟩ <;> ring

/-- Witness for C9_reg_scaling at the concrete scenario input, reg = 1. -/
theorem C9_witness :
    (0:ℚ) ≤ 1 ∧
    ((∀ l₀ g₀ l₁ g₁ l₂ g₂,
      svm_loss_naive W8 X8 y8 0 = some (l₀, g₀) →
      svm_loss_naive W8 X8 y8 1 = some (l₁, g₁) →
      svm_loss_naive W8 X8 y8 (2 * 1) = some (l₂, g₂) →
      l₂ - l₀ = 2 * (l₁ - l₀) ∧ l₁ - l₀ = 1 * sumWW W8 ∧
      ∀ d k, g₂ d k - g₀ d k = 2 * (g₁ d k - g₀ d k) ∧
             g₁ d k - g₀ d k = 2 * 1 * W8 d k) ∧
     (∀ l₀ g₀ l₁ g₁ l₂ g₂,
      svm_loss_vectorized W8 X8 y8 0 = some (some l₀, g₀) →
      svm_loss_vectorized W8 X8 y8 1 = some (some l₁, g₁) →
      svm_loss_vectorized W8 X8 y8 (2 * 1) = some (some l₂, g₂) →
      l₂ - l₀ = 2 * (l₁ - l₀) ∧ l₁ - l₀ = 1 * sumWW W8 ∧
      ∀ d k, ∃ v₀ v₁ v₂, g₀ d k = some v₀ ∧ g₁ d k = some v₁ ∧ g₂ d k = some v₂ ∧
             v₂ - v₀ = 2 * (v₁ - v₀) ∧ v₁ - v₀ = 2 * 1 * W8 d k)) :=
  ⟨by norm_num, C9_reg_scaling W8 X8 y8 1 (by norm_num)⟩

/-- C10: permuting the examples (the rows of X together with the entries
of y by the same permutation) leaves the result of svm_loss_naive and of
svm_loss_vectorized unchanged. -/
theorem C10_permutation {D C N : ℕ} (W : Mat D C) (X : Mat N D) (y : Fin N → Fin C)
    (reg : ℚ) (e : Equiv.Perm (Fin N)) :
    svm_loss_naive W (fun i => X (e i)) (fun i => y (e i)) reg
      = svm_loss_naive W X y reg ∧
    svm_loss_vectorized W (fun i => X (e i)) (fun i => y (e i)) reg
      = svm_loss_vectorized W X y reg := by
  by_cases hN : N = 0
  · refine ⟨by unfold svm_loss_naive; rw [if_pos hN, if_pos hN], ?_⟩
    by_cases hC : 31 < C
    · rw [vec_choose_fail _ _ _ _ hC, vec_choose_fail _ _ _ _ hC]
    · rw [vec_empty _ _ _ _ hC hN, vec_empty _ _ _ _ hC hN]
  · constructor
    · rw [svm_loss_naive_closed _ _ _ _ hN, svm_loss_naive_closed _ _ _ _ hN,
        hingeSum_perm W X y e]
      simp only [gradSum_perm W X y e]
    · by_cases hC : 31 < C
      · rw [vec_choose_fail _ _ _ _ hC, vec_choose_fail _ _ _ _ hC]
      · rw [vec_closed _ _ _ _ hC hN, vec_closed _ _ _ _ hC hN,
          hingeSum_perm W X y e]
        simp only [gradSum_perm W X y e]

end LinearSVM
